import Mathlib

/-!
Verification of the `st_supabase_connection` connector
(`src/st_supabase_connection/__init__.py`) against its natural-language
specification.  The Python module is shallowly embedded: pure helpers become
Lean functions on `String` / `List Char` / `List Nat` (bytes), duck-typed
Python objects become explicit sum or record types, raised exceptions become
`Except` errors, and side effects (SDK calls, file handles, cleanup callbacks)
become explicit event traces.  The host framework's memoizing cache decorators
(`cache_resource` / `cache_data`) are external to the repository and are
modelled from the specification with explicit logical time.
-/

/-- The module-level constant `_DEFAULT_MIME_TYPE = "application/octet-stream"`. -/
def _DEFAULT_MIME_TYPE : String := "application/octet-stream"

/-- Model of the `mimetypes` table used by `mimetypes.guess_type`: a finite
map from file extensions (the part of the name after the last dot) to MIME
types.  The exact table contents are irrelevant to the claims; only the shape
(`Option String`, entries are non-empty strings) matters. -/
def mimeTable : List (String × String) :=
  [("txt", "text/plain"), ("csv", "text/csv"), ("html", "text/html"),
   ("json", "application/json"), ("pdf", "application/pdf"),
   ("png", "image/png"), ("jpg", "image/jpeg"), ("jpeg", "image/jpeg"),
   ("gif", "image/gif"), ("mp3", "audio/mpeg"), ("mp4", "video/mp4"),
   ("zip", "application/zip"), ("xml", "application/xml")]

/-- The extension of a file name: the characters after the last `.`,
or `none` when the name has no dot. -/
def extensionOf (name : String) : Option String :=
  let rev := name.toList.reverse
  if rev.contains '.' then some ⟨(rev.takeWhile (· ≠ '.')).reverse⟩ else none

/-- Model of `mimetypes.guess_type(name)[0]`: look the extension up in the
table, `none` when unknown. -/
def guess_type (name : String) : Option String :=
  match extensionOf name with
  | some ext => mimeTable.lookup ext
  | none => none

/-- Python's `a or b` for optional strings: `a` wins unless it is missing or
empty (the empty string is falsy in Python). -/
def pyOrOpt (a b : Option String) : Option String :=
  match a with
  | some s => if s = "" then b else some s
  | none => b

/-- Python's `a or b` where `b` is a plain (truthy) string. -/
def pyOrStr (a : Option String) (b : String) : String :=
  match pyOrOpt a (some b) with
  | some s => s
  | none => b

/-- `_normalize_storage_path`: strip the leading `/` characters
(`path.lstrip("/")`) and raise `ValueError` when nothing remains. -/
def _normalize_storage_path (path : String) : Except String String :=
  let sanitized_path : List Char := path.toList.dropWhile (· = '/')
  if sanitized_path.isEmpty then
    Except.error "Object paths must not be empty or point to the bucket root."
  else
    Except.ok ⟨sanitized_path⟩

theorem dropWhile_slash_decomp (l : List Char) :
    l = List.replicate (l.takeWhile (· = '/')).length '/' ++ l.dropWhile (· = '/') := by
  have h1 : l.takeWhile (· = '/') ++ l.dropWhile (· = '/') = l :=
    List.takeWhile_append_dropWhile _ l
  have h2 : l.takeWhile (· = '/') = List.replicate (l.takeWhile (· = '/')).length '/' := by
    apply List.eq_replicate_of_mem
    intro b hb
    have := List.mem_takeWhile_imp hb
    simpa using this
  conv_lhs => rw [← h1]
  rw [← h2]

theorem head_dropWhile_slash (l : List Char) :
    ¬ (l.dropWhile (· = '/')).head? = some '/' := by
  intro h
  have := List.head?_dropWhile_not (p := fun c => c = '/') (l := l)
  rw [h] at this
  simp at this

theorem dropWhile_eq_self_of_head (l : List Char) (h : ¬ l.head? = some '/') :
    l.dropWhile (· = '/') = l := by
  cases l with
  | nil => rfl
  | cons c cs =>
    simp only [List.head?] at h
    have hc : ¬ c = '/' := fun hcc => h (by rw [hcc])
    simp [List.dropWhile_cons, hc]

theorem normalize_ok_spec (path r : String)
    (h : _normalize_storage_path path = Except.ok r) :
    r.toList = path.toList.dropWhile (· = '/') ∧
    ¬ r.toList.head? = some '/' ∧ r ≠ "" := by
  simp only [_normalize_storage_path] at h
  split at h
  · exact absurd h (by simp)
  · rename_i he
    have h2 : r = String.mk (path.toList.dropWhile (· = '/')) := by
      cases h; rfl
    subst h2
    refine ⟨rfl, by simpa using head_dropWhile_slash path.toList, ?_⟩
    intro hcon
    have hl : path.toList.dropWhile (· = '/') = [] := by
      have := congrArg String.toList hcon
      simpa using this
    rw [hl] at he
    simp at he

/-- C3: `_normalize_storage_path` strips exactly the leading `/` characters:
on success the input is some number of slashes followed by the (slash-free-
headed, non-empty) result, it fails precisely when the input consists only of
`/` characters, and the concrete examples of the specification evaluate as
stated. -/
theorem C3_normalize_path_strips_leading_slashes :
    (∀ path : String,
      (∀ r, _normalize_storage_path path = Except.ok r →
        (∃ n, path.toList = List.replicate n '/' ++ r.toList) ∧
        ¬ r.toList.head? = some '/' ∧ r ≠ "") ∧
      ((∃ e, _normalize_storage_path path = Except.error e) ↔
        path.toList = List.replicate path.toList.length '/')) ∧
    _normalize_storage_path "/a/b.txt" = Except.ok "a/b.txt" ∧
    _normalize_storage_path "a/b.txt" = Except.ok "a/b.txt" ∧
    (∃ e, _normalize_storage_path "/" = Except.error e) ∧
    (∃ e, _normalize_storage_path "" = Except.error e) := by
  refine ⟨fun path => ⟨fun r hr => ?_, ?_⟩, rfl, rfl,
    ⟨"Object paths must not be empty or point to the bucket root.", rfl⟩,
    ⟨"Object paths must not be empty or point to the bucket root.", rfl⟩⟩
  · obtain ⟨hr1, hr2, hr3⟩ := normalize_ok_spec path r hr
    refine ⟨⟨(path.toList.takeWhile (· = '/')).length, ?_⟩, hr2, hr3⟩
    rw [hr1]
    exact dropWhile_slash_decomp path.toList
  · constructor
    · rintro ⟨e, he⟩
      simp only [_normalize_storage_path] at he
      split at he
      · rename_i h
        have hnil : path.toList.dropWhile (· = '/') = [] := by
          simpa [List.isEmpty_iff] using h
        have hdecomp := dropWhile_slash_decomp path.toList
        rw [hnil, List.append_nil] at hdecomp
        have hlen : (path.toList.takeWhile (· = '/')).length = path.toList.length := by
          conv_rhs => rw [hdecomp]
          simp
        rw [← hlen]
        exact hdecomp
      · exact absurd he (by simp)
    · intro hrep
      refine ⟨"Object paths must not be empty or point to the bucket root.", ?_⟩
      have hempty : path.toList.dropWhile (· = '/') = [] := by
        rw [hrep]
        simp [List.dropWhile_eq_nil_iff]
      simp only [_normalize_storage_path]
      rw [hempty]
      rfl

/-- C3 witness: the universally quantified part evaluated at `"//x"`. -/
theorem C3_normalize_path_strips_leading_slashes_witness :
    (∃ n, ("//x" : String).toList = List.replicate n '/' ++ ("x" : String).toList) ∧
    ("x" : String) ≠ "" := by
  have h := (C3_normalize_path_strips_leading_slashes.1 "//x").1 "x" rfl
  exact ⟨h.1, h.2.2⟩

/-- C4: normalization is idempotent: whenever `_normalize_storage_path`
succeeds, running it again on its own output succeeds with the same string. -/
theorem C4_normalize_path_idempotent (path r : String)
    (h : _normalize_storage_path path = Except.ok r) :
    _normalize_storage_path r = Except.ok r := by
  obtain ⟨_, hhead, hne⟩ := normalize_ok_spec path r h
  have hdrop : r.toList.dropWhile (· = '/') = r.toList :=
    dropWhile_eq_self_of_head r.toList hhead
  have hnonempty : ¬ r.toList.isEmpty := by
    intro hcon
    apply hne
    have : r.toList = [] := by simpa [List.isEmpty_iff] using hcon
    cases r with
    | mk data =>
      simp only [String.toList] at this
      simp [this]
  simp only [_normalize_storage_path]
  rw [hdrop, if_neg hnonempty]
  cases r with
  | mk data => rfl

/-- C4 witness. -/
theorem C4_normalize_path_idempotent_witness :
    _normalize_storage_path "a/b.txt" = Except.ok "a/b.txt" :=
  C4_normalize_path_idempotent "/a/b.txt" "a/b.txt" rfl

/-- The configuration sources consulted by `SupabaseConnection._connect`:
the optional `url` / `key` keyword arguments, the Streamlit secret store
(`self._secrets`) and the process environment (`os.environ`), the latter two
as partial maps from names to values. -/
structure ConfigSources where
  kwargs_url : Option String
  kwargs_key : Option String
  secrets : String → Option String
  environ : String → Option String

/-- The `ConnectionRefusedError` message raised when no URL is found
(the juxtaposed string literals of the source, concatenated). -/
def urlErrorMessage : String :=
  "Supabase URL not provided. You can provide the url by passing it as the \x27url\x27 kwarg while creating the connection, or setting the \x27SUPABASE_URL\x27 Streamlit secret or environment variable."

/-- The `ConnectionRefusedError` message raised when no key is found. -/
def keyErrorMessage : String :=
  "Supabase Key not provided. You can provide the key by passing it as the \x27key\x27 kwarg while creating the connection, or setting the \x27SUPABASE_KEY\x27 Streamlit secret or environment variable."

/-- The `url` block of `_connect`: kwarg, then secret store, then
environment, else raise. -/
def resolveUrl (c : ConfigSources) : Except String String :=
  match c.kwargs_url with
  | some url => Except.ok url
  | none =>
    match c.secrets "SUPABASE_URL" with
    | some url => Except.ok url
    | none =>
      match c.environ "SUPABASE_URL" with
      | some url => Except.ok url
      | none => Except.error urlErrorMessage

/-- The `key` block of `_connect`. -/
def resolveKey (c : ConfigSources) : Except String String :=
  match c.kwargs_key with
  | some key => Except.ok key
  | none =>
    match c.secrets "SUPABASE_KEY" with
    | some key => Except.ok key
    | none =>
      match c.environ "SUPABASE_KEY" with
      | some key => Except.ok key
      | none => Except.error keyErrorMessage

/-- `SupabaseConnection._connect`: resolve the URL (raising on failure),
then the key (raising on failure), and build the client from the pair. -/
def _connect (c : ConfigSources) : Except String (String × String) := do
  let url ← resolveUrl c
  let key ← resolveKey c
  return (url, key)

/-- Does `hay` start with `needle`? -/
def startsWithList : List Char → List Char → Bool
  | _, [] => true
  | [], _ :: _ => false
  | h :: t, n :: nt => h = n && startsWithList t nt

/-- Does `hay` contain `needle` as a contiguous run? -/
def containsList (hay needle : List Char) : Bool :=
  match hay with
  | [] => needle.isEmpty
  | _ :: t => startsWithList hay needle || containsList t needle

/-- `needle in hay` for strings. -/
def containsSubstring (hay needle : String) : Bool :=
  containsList hay.toList needle.toList

/-- C1: `_connect` resolves each of url and key with priority
kwarg > secret store > environment variable; when all three sources are
absent it fails with the configuration error message of the source, which
names the missing value and the three supply points. -/
theorem C1_connect_credential_priority :
    (∀ c : ConfigSources, ∀ u, c.kwargs_url = some u → resolveUrl c = Except.ok u) ∧
    (∀ c : ConfigSources, ∀ u, c.kwargs_url = none →
      c.secrets "SUPABASE_URL" = some u → resolveUrl c = Except.ok u) ∧
    (∀ c : ConfigSources, ∀ u, c.kwargs_url = none → c.secrets "SUPABASE_URL" = none →
      c.environ "SUPABASE_URL" = some u → resolveUrl c = Except.ok u) ∧
    (∀ c : ConfigSources, c.kwargs_url = none → c.secrets "SUPABASE_URL" = none →
      c.environ "SUPABASE_URL" = none → resolveUrl c = Except.error urlErrorMessage) ∧
    (∀ c : ConfigSources, ∀ k, c.kwargs_key = some k → resolveKey c = Except.ok k) ∧
    (∀ c : ConfigSources, ∀ k, c.kwargs_key = none →
      c.secrets "SUPABASE_KEY" = some k → resolveKey c = Except.ok k) ∧
    (∀ c : ConfigSources, ∀ k, c.kwargs_key = none → c.secrets "SUPABASE_KEY" = none →
      c.environ "SUPABASE_KEY" = some k → resolveKey c = Except.ok k) ∧
    (∀ c : ConfigSources, c.kwargs_key = none → c.secrets "SUPABASE_KEY" = none →
      c.environ "SUPABASE_KEY" = none → resolveKey c = Except.error keyErrorMessage) ∧
    (∀ c : ConfigSources, ∀ u k, resolveUrl c = Except.ok u → resolveKey c = Except.ok k →
      _connect c = Except.ok (u, k)) ∧
    (∀ c : ConfigSources, ∀ e, resolveUrl c = Except.error e →
      _connect c = Except.error e) ∧
    (∀ c : ConfigSources, ∀ u e, resolveUrl c = Except.ok u →
      resolveKey c = Except.error e → _connect c = Except.error e) ∧
    (containsSubstring urlErrorMessage "URL" = true ∧
      containsSubstring urlErrorMessage "url" = true ∧
      containsSubstring urlErrorMessage "kwarg" = true ∧
      containsSubstring urlErrorMessage "SUPABASE_URL" = true ∧
      containsSubstring urlErrorMessage "Streamlit secret" = true ∧
      containsSubstring urlErrorMessage "environment variable" = true) ∧
    (containsSubstring keyErrorMessage "Key" = true ∧
      containsSubstring keyErrorMessage "key" = true ∧
      containsSubstring keyErrorMessage "kwarg" = true ∧
      containsSubstring keyErrorMessage "SUPABASE_KEY" = true ∧
      containsSubstring keyErrorMessage "Streamlit secret" = true ∧
      containsSubstring keyErrorMessage "environment variable" = true) := by
  refine ⟨?_, ?_, ?_, ?_, ?_, ?_, ?_, ?_, ?_, ?_, ?_, ?_, ?_⟩
  · intro c u h; simp [resolveUrl, h]
  · intro c u h1 h2; simp [resolveUrl, h1, h2]
  · intro c u h1 h2 h3; simp [resolveUrl, h1, h2, h3]
  · intro c h1 h2 h3; simp [resolveUrl, h1, h2, h3]
  · intro c k h; simp [resolveKey, h]
  · intro c k h1 h2; simp [resolveKey, h1, h2]
  · intro c k h1 h2 h3; simp [resolveKey, h1, h2, h3]
  · intro c h1 h2 h3; simp [resolveKey, h1, h2, h3]
  · intro c u k h1 h2; simp [_connect, h1, h2]; rfl
  · intro c e h1; simp [_connect, h1]; rfl
  · intro c u e h1 h2; simp [_connect, h1, h2]; rfl
  · exact ⟨by decide, by decide, by decide, by decide, by decide, by decide⟩
  · exact ⟨by decide, by decide, by decide, by decide, by decide, by decide⟩

/-- C1 witness: the priority and combination statements evaluated at concrete
configurations (kwarg beats a present secret for the url, the key comes from
the environment, and a configuration with no key source at all fails with the
key error message). -/
theorem C1_connect_credential_priority_witness :
    resolveUrl ⟨some "kwarg-url", none, fun _ => some "secret-val", fun _ => none⟩ =
      Except.ok "kwarg-url" ∧
    resolveKey ⟨none, none, fun _ => none,
      fun s => if s = "SUPABASE_KEY" then some "env-key" else none⟩ =
      Except.ok "env-key" ∧
    _connect ⟨some "kwarg-url", none, fun _ => none, fun _ => none⟩ =
      Except.error keyErrorMessage := by
  have h := C1_connect_credential_priority
  refine ⟨h.1 _ "kwarg-url" rfl, ?_, ?_⟩
  · exact h.2.2.2.2.2.2.1 _ "env-key" rfl rfl rfl
  · have hu : resolveUrl ⟨some "kwarg-url", none, fun _ => none, fun _ => none⟩ =
        Except.ok "kwarg-url" := h.1 _ "kwarg-url" rfl
    have hk : resolveKey ⟨some "kwarg-url", none, fun _ => none, fun _ => none⟩ =
        Except.error keyErrorMessage := h.2.2.2.2.2.2.2.1 _ rfl rfl rfl
    exact h.2.2.2.2.2.2.2.2.2.2.1 _ "kwarg-url" keyErrorMessage hu hk

/-- Byte strings (Python `bytes`) are modelled as lists of naturals. -/
abbrev Bytes := List Nat

/-- A Python value produced by a buffer accessor (`getvalue`) or a stream
read (`read`): either text or bytes. -/
inductive PyData
  | str (s : String)
  | bytes (b : Bytes)
deriving DecidableEq

/-- Model of `str.encode()`: the UTF-8 bytes of the string. -/
def strEncode (s : String) : Bytes :=
  s.toUTF8.toList.map (fun b => b.toNat)

/-- A duck-typed file-like object as probed by `_prepare_upload_payload`:
optional `name`, `type` and `content_type` attributes, whether it has a
`seek` method, and the optional results of `getvalue()` / `read()` (the
contents from the start of the object, since the code seeks to 0 first when
the object is seekable). -/
structure FileLike where
  name : Option String
  type : Option String
  content_type : Option String
  hasSeek : Bool
  getvalue : Option PyData
  read : Option PyData
deriving DecidableEq

/-- The argument of `_prepare_upload_payload`: a filesystem path (`str` or
`pathlib.Path`), raw `bytes`, or a duck-typed file-like object. -/
inductive UploadFile
  | pathLike (p : String)
  | rawBytes (b : Bytes)
  | fileLike (f : FileLike)
deriving DecidableEq

/-- The payload component returned by `_prepare_upload_payload`: a Python
`str` (never actually returned, see C10), `bytes`, an opened binary file
handle, or the original object passed through. -/
inductive Payload
  | str (s : String)
  | bytes (b : Bytes)
  | fileHandle (path : String)
  | obj (f : FileLike)
deriving DecidableEq

/-- The cleanup callback of `_prepare_upload_payload`: `file_obj.close` for
the handle opened on a path input. -/
inductive CleanupAction
  | closeHandle (path : String)
deriving DecidableEq

/-- `getattr(file, "name", fallback_name)`. -/
def duckNameHint (file : UploadFile) (fallback_name : String) : String :=
  match file with
  | .fileLike f => f.name.getD fallback_name
  | _ => fallback_name

/-- `getattr(file, "type", None)`. -/
def duckTypeAttr : UploadFile → Option String
  | .fileLike f => f.type
  | _ => none

/-- `getattr(file, "content_type", None)`. -/
def duckContentTypeAttr : UploadFile → Option String
  | .fileLike f => f.content_type
  | _ => none

/-- The `content_type` chain of the non-path branch:
`type or content_type or guess_type(name_hint) or default`. -/
def duckContentType (file : UploadFile) (fallback_name : String) : String :=
  let name_hint := duckNameHint file fallback_name
  pyOrStr
    (pyOrOpt (pyOrOpt (duckTypeAttr file) (duckContentTypeAttr file)) (guess_type name_hint))
    _DEFAULT_MIME_TYPE

/-- Lift the result of `getvalue()` / `read()` into a payload. -/
def ofPyData : PyData → Payload
  | .str s => Payload.str s
  | .bytes b => Payload.bytes b

/-- `_prepare_upload_payload(file, fallback_name)`: returns
`(payload, content_type, cleanup)`.  Path inputs are opened for binary read
with the handle close as cleanup; raw bytes pass through; file-like objects
are drained via `getvalue()` / `read()` (or passed through when neither is
available), and a textual result is encoded to bytes. -/
def _prepare_upload_payload (file : UploadFile) (fallback_name : String) :
    Payload × String × Option CleanupAction :=
  match file with
  | .pathLike file_path =>
    (Payload.fileHandle file_path,
     pyOrStr (guess_type file_path) _DEFAULT_MIME_TYPE,
     some (CleanupAction.closeHandle file_path))
  | .rawBytes b =>
    (Payload.bytes b, duckContentType (UploadFile.rawBytes b) fallback_name, none)
  | .fileLike f =>
    let payload0 :=
      match f.getvalue with
      | some v => ofPyData v
      | none =>
        match f.read with
        | some v => ofPyData v
        | none => Payload.obj f
    let payload :=
      match payload0 with
      | Payload.str s => Payload.bytes (strEncode s)
      | p => p
    (payload, duckContentType (UploadFile.fileLike f) fallback_name, none)

theorem lookup_ne_empty (l : List (String × String)) (hl : ∀ p ∈ l, ¬ p.2 = "") :
    ∀ k v, l.lookup k = some v → ¬ v = "" := by
  induction l with
  | nil => intro k v h; simp [List.lookup] at h
  | cons p rest ih =>
    intro k v h
    simp only [List.lookup] at h
    split at h
    · cases h
      exact hl p (by simp)
    · exact ih (fun q hq => hl q (by simp [hq])) k v h

theorem guess_type_ne_empty (name : String) :
    ∀ v, guess_type name = some v → ¬ v = "" := by
  intro v h
  unfold guess_type at h
  split at h
  · exact lookup_ne_empty mimeTable (by decide) _ v h
  · cases h

theorem pyOrStr_guess_eq_match (name : String) :
    pyOrStr (guess_type name) _DEFAULT_MIME_TYPE =
      (match guess_type name with
       | some m => m
       | none => _DEFAULT_MIME_TYPE) := by
  cases hg : guess_type name with
  | none => simp [pyOrStr, pyOrOpt]
  | some m =>
    have hm : ¬ m = "" := guess_type_ne_empty name m hg
    simp [pyOrStr, pyOrOpt, hm]

theorem pyOrStr_guess_ne_empty (name : String) :
    ¬ pyOrStr (guess_type name) _DEFAULT_MIME_TYPE = "" := by
  rw [pyOrStr_guess_eq_match]
  cases hg : guess_type name with
  | none => decide
  | some m => simpa using guess_type_ne_empty name m hg

/-- C6: on raw bytes, `_prepare_upload_payload` returns exactly those bytes,
no cleanup action, and a non-empty content type: the MIME type guessed from
the fallback name, or the generic binary MIME type when the name is not
recognized. -/
theorem C6_prepare_payload_raw_bytes (b : Bytes) (fallback_name : String) :
    _prepare_upload_payload (UploadFile.rawBytes b) fallback_name =
      (Payload.bytes b,
       (match guess_type fallback_name with
        | some m => m
        | none => _DEFAULT_MIME_TYPE),
       none) ∧
    ¬ (_prepare_upload_payload (UploadFile.rawBytes b) fallback_name).2.1 = "" := by
  have hct : duckContentType (UploadFile.rawBytes b) fallback_name =
      pyOrStr (guess_type fallback_name) _DEFAULT_MIME_TYPE := by
    simp [duckContentType, duckNameHint, duckTypeAttr, duckContentTypeAttr, pyOrOpt]
  constructor
  · simp only [_prepare_upload_payload, hct, pyOrStr_guess_eq_match]
  · simp only [_prepare_upload_payload, hct]
    exact pyOrStr_guess_ne_empty fallback_name

/-- C6 witness: raw bytes with an unrecognized fallback name get the default
binary MIME type, by the theorem applied at `[104, 105]` and `"f.unknownext"`. -/
theorem C6_prepare_payload_raw_bytes_witness :
    _prepare_upload_payload (UploadFile.rawBytes [104, 105]) "f.unknownext" =
      (Payload.bytes [104, 105], _DEFAULT_MIME_TYPE, none) := by
  have h := (C6_prepare_payload_raw_bytes [104, 105] "f.unknownext").1
  rw [h]
  rfl

/-- C10: for non-path inputs the payload is never a Python `str`: a textual
`getvalue()` / `read()` result is encoded to bytes, raw bytes stay bytes, and
an object with neither accessor is passed through unchanged. -/
theorem C10_prepare_payload_never_str :
    (∀ (f : FileLike) (fallback_name : String) (s : String),
      ¬ (_prepare_upload_payload (UploadFile.fileLike f) fallback_name).1 = Payload.str s) ∧
    (∀ (b : Bytes) (fallback_name : String) (s : String),
      ¬ (_prepare_upload_payload (UploadFile.rawBytes b) fallback_name).1 = Payload.str s) ∧
    (∀ (f : FileLike) (fallback_name : String) (s : String),
      f.getvalue = some (PyData.str s) →
      (_prepare_upload_payload (UploadFile.fileLike f) fallback_name).1 =
        Payload.bytes (strEncode s)) ∧
    (∀ (f : FileLike) (fallback_name : String) (s : String),
      f.getvalue = none → f.read = some (PyData.str s) →
      (_prepare_upload_payload (UploadFile.fileLike f) fallback_name).1 =
        Payload.bytes (strEncode s)) ∧
    (∀ (f : FileLike) (fallback_name : String),
      f.getvalue = none → f.read = none →
      (_prepare_upload_payload (UploadFile.fileLike f) fallback_name).1 = Payload.obj f) := by
  refine ⟨?_, ?_, ?_, ?_, ?_⟩
  · intro f fallback_name s
    simp only [_prepare_upload_payload]
    cases hg : f.getvalue with
    | some v => cases v <;> simp [ofPyData]
    | none =>
      cases hr : f.read with
      | some v => cases v <;> simp [ofPyData]
      | none => simp
  · intro b fallback_name s
    simp [_prepare_upload_payload]
  · intro f fallback_name s hg
    simp [_prepare_upload_payload, hg, ofPyData]
  · intro f fallback_name s hg hr
    simp [_prepare_upload_payload, hg, hr, ofPyData]
  · intro f fallback_name hg hr
    simp [_prepare_upload_payload, hg, hr]

/-- C10 witness: a `StringIO`-style object whose `getvalue()` yields text is
returned as the encoded bytes, by the theorem applied at a concrete object. -/
theorem C10_prepare_payload_never_str_witness :
    (_prepare_upload_payload
      (UploadFile.fileLike ⟨none, none, none, true, some (PyData.str "hi"), none⟩)
      "f.txt").1 = Payload.bytes (strEncode "hi") :=
  C10_prepare_payload_never_str.2.2.1 ⟨none, none, none, true, some (PyData.str "hi"), none⟩
    "f.txt" "hi" rfl

/-- Modelled from the spec: the memoizing TTL cache behind the host
framework's `cache_resource` / `cache_data` decorators.  The repository only
configures those decorators (their implementation lives in the external
`streamlit` package), so the cache is modelled from the specification:
entries are keyed by the argument tuple, hold the computed value and the
logical time at which they were stored, and expire per the TTL policy. -/
abbrev CacheState (K V : Type) := List (K × V × Nat)

/-- Modelled from the spec: a cache entry stored at time `stored` is fresh at
time `now` when `ttl` is `None` (never expires) or when fewer than `ttl`
time units have elapsed; with `ttl = 0` no entry is ever fresh. -/
def isFresh (ttl : Option Nat) (now stored : Nat) : Bool :=
  match ttl with
  | none => true
  | some d => now < stored + d

/-- Find the first fresh entry stored under `key`. -/
def lookupFresh {K V : Type} [DecidableEq K] (ttl : Option Nat) (now : Nat) (key : K) :
    CacheState K V → Option V
  | [] => none
  | (k, v, t) :: rest =>
    if k = key ∧ isFresh ttl now t = true then some v
    else lookupFresh ttl now key rest

/-- Modelled from the spec: one invocation of a memoized function at logical
time `now`: on a fresh hit return the cached value, otherwise invoke the
underlying function and store the result.  The returned `Bool` records
whether the underlying function was invoked. -/
def cachedCall {K V : Type} [DecidableEq K] (ttl : Option Nat) (fn : K → V)
    (st : CacheState K V) (key : K) (now : Nat) : V × CacheState K V × Bool :=
  match lookupFresh ttl now key st with
  | some v => (v, st, false)
  | none => (fn key, (key, fn key, now) :: st, true)

/-- `SupabaseConnection.get_bucket`: `cache_resource(ttl)` around
`storage.get_bucket(bucket_id)`. -/
def get_bucket {B : Type} (sdk_get_bucket : String → B) (ttl : Option Nat)
    (st : CacheState String B) (bucket_id : String) (now : Nat) :
    B × CacheState String B × Bool :=
  cachedCall ttl sdk_get_bucket st bucket_id now

/-- `SupabaseConnection.list_buckets`: `cache_resource(ttl)` around
`storage.list_buckets()`. -/
def list_buckets {B : Type} (sdk_list_buckets : Unit → B) (ttl : Option Nat)
    (st : CacheState Unit B) (now : Nat) : B × CacheState Unit B × Bool :=
  cachedCall ttl sdk_list_buckets st () now

/-- `SupabaseConnection.list_objects`: `cache_data(ttl)` around
`storage.from_(bucket_id).list(path, options)` with the full argument tuple
as the key. -/
def list_objects {B : Type}
    (sdk_list : String → Option String → Nat → Nat → String → String → B)
    (ttl : Option Nat)
    (st : CacheState (String × Option String × Nat × Nat × String × String) B)
    (bucket_id : String) (path : Option String) (limit offset : Nat)
    (sortby order : String) (now : Nat) :
    B × CacheState (String × Option String × Nat × Nat × String × String) B × Bool :=
  cachedCall ttl
    (fun a => sdk_list a.1 a.2.1 a.2.2.1 a.2.2.2.1 a.2.2.2.2.1 a.2.2.2.2.2)
    st (bucket_id, path, limit, offset, sortby, order) now

/-- `SupabaseConnection.get_public_url`: `cache_data(ttl)` around
`storage.from_(bucket_id).get_public_url(filepath)`. -/
def get_public_url {B : Type} (sdk_public_url : String → String → B)
    (ttl : Option Nat) (st : CacheState (String × String) B)
    (bucket_id filepath : String) (now : Nat) :
    B × CacheState (String × String) B × Bool :=
  cachedCall ttl (fun a => sdk_public_url a.1 a.2) st (bucket_id, filepath) now

/-- `SupabaseConnection.cached_sign_in_with_password`: `cache_resource(ttl)`
around `auth.sign_in_with_password(credentials)`. -/
def cached_sign_in_with_password {C B : Type} [DecidableEq C]
    (sdk_sign_in : C → B) (ttl : Option Nat) (st : CacheState C B)
    (credentials : C) (now : Nat) : B × CacheState C B × Bool :=
  cachedCall ttl sdk_sign_in st credentials now

/-- The request data of a chained query builder, as used by the
`_hash_func` keyer of `execute_query`. -/
structure QueryRequest where
  path : String
  params : String
  json : String
deriving DecidableEq

/-- The keyer of `execute_query`:
`hash(str(request.path) + str(request.params) + str(request.json or {}))`,
modelled as the concatenated string itself. -/
def queryHashKey (r : QueryRequest) : String :=
  r.path ++ r.params ++ r.json

/-- Module-level `execute_query(query, ttl)`: `cache_resource(ttl)` around
`query.execute()`, keyed by `queryHashKey` via `hash_funcs`. -/
def execute_query {B : Type} (execute : QueryRequest → B) (ttl : Option Nat)
    (st : CacheState String B) (query : QueryRequest) (now : Nat) :
    B × CacheState String B × Bool :=
  cachedCall ttl (fun _ => execute query) st (queryHashKey query) now

theorem lookupFresh_none_time_irrelevant {K V : Type} [DecidableEq K]
    (key : K) (st : CacheState K V) (t1 t2 : Nat) :
    lookupFresh none t1 key st = lookupFresh none t2 key st := by
  induction st with
  | nil => rfl
  | cons e rest ih =>
    obtain ⟨k, v, t⟩ := e
    simp only [lookupFresh, isFresh]
    split
    · rfl
    · exact ih

theorem lookupFresh_ttl_zero {K V : Type} [DecidableEq K]
    (key : K) (st : CacheState K V) (now : Nat)
    (hst : ∀ e ∈ st, e.2.2 ≤ now) :
    lookupFresh (some 0) now key st = none := by
  induction st with
  | nil => rfl
  | cons e rest ih =>
    obtain ⟨k, v, t⟩ := e
    have ht : t ≤ now := hst (k, v, t) (by simp)
    simp only [lookupFresh]
    have hfresh : isFresh (some 0) now t = false := by
      simp [isFresh]
      omega
    rw [hfresh]
    have hcond : ¬ (k = key ∧ (false : Bool) = true) := by
      rintro ⟨_, hf⟩; cases hf
    rw [if_neg hcond]
    exact ih (fun e he => hst e (by simp [he]))

/-- C2: memoization semantics of the TTL cache shared by all memoized
operations: a second call with the same key within the TTL window does not
invoke the underlying function again (so two calls invoke it exactly once);
with `ttl = 0` the underlying function is invoked on every call; with
`ttl = None` a stored entry never expires.  Each memoized operation of the
module (`execute_query`, `download` via `download_body`, `get_bucket`,
`list_buckets`, `list_objects`, `get_public_url`,
`cached_sign_in_with_password`) is definitionally this `cachedCall` applied
to its SDK call (the `download` tying conjunct appears with C8, after
`download` is defined). -/
theorem C2_memoized_ttl_semantics :
    (∀ (K V : Type) [DecidableEq K] (fn : K → V) (key : K) (d t1 t2 : Nat),
      (cachedCall (some d) fn [] key t1).2.2 = true ∧
      (t2 < t1 + d →
        (cachedCall (some d) fn (cachedCall (some d) fn [] key t1).2.1 key t2).2.2 = false ∧
        (cachedCall (some d) fn (cachedCall (some d) fn [] key t1).2.1 key t2).1 = fn key)) ∧
    (∀ (K V : Type) [DecidableEq K] (fn : K → V) (st : CacheState K V) (key : K) (now : Nat),
      (∀ e ∈ st, e.2.2 ≤ now) → (cachedCall (some 0) fn st key now).2.2 = true) ∧
    (∀ (K V : Type) [DecidableEq K] (fn : K → V) (st : CacheState K V) (key : K) (t1 t2 : Nat),
      (cachedCall none fn (cachedCall none fn st key t1).2.1 key t2).2.2 = false) ∧
    (∀ (B : Type) (sdk : String → B) (ttl : Option Nat) (st : CacheState String B)
      (bucket_id : String) (now : Nat),
      get_bucket sdk ttl st bucket_id now = cachedCall ttl sdk st bucket_id now) ∧
    (∀ (B : Type) (sdk : Unit → B) (ttl : Option Nat) (st : CacheState Unit B) (now : Nat),
      list_buckets sdk ttl st now = cachedCall ttl sdk st () now) ∧
    (∀ (B : Type) (sdk : String → Option String → Nat → Nat → String → String → B)
      (ttl : Option Nat)
      (st : CacheState (String × Option String × Nat × Nat × String × String) B)
      (bucket_id : String) (path : Option String) (limit offset : Nat)
      (sortby order : String) (now : Nat),
      list_objects sdk ttl st bucket_id path limit offset sortby order now =
        cachedCall ttl
          (fun a => sdk a.1 a.2.1 a.2.2.1 a.2.2.2.1 a.2.2.2.2.1 a.2.2.2.2.2)
          st (bucket_id, path, limit, offset, sortby, order) now) ∧
    (∀ (B : Type) (sdk : String → String → B) (ttl : Option Nat)
      (st : CacheState (String × String) B) (bucket_id filepath : String) (now : Nat),
      get_public_url sdk ttl st bucket_id filepath now =
        cachedCall ttl (fun a => sdk a.1 a.2) st (bucket_id, filepath) now) ∧
    (∀ (C B : Type) [DecidableEq C] (sdk : C → B) (ttl : Option Nat)
      (st : CacheState C B) (credentials : C) (now : Nat),
      cached_sign_in_with_password sdk ttl st credentials now =
        cachedCall ttl sdk st credentials now) ∧
    (∀ (B : Type) (execute : QueryRequest → B) (ttl : Option Nat)
      (st : CacheState String B) (query : QueryRequest) (now : Nat),
      execute_query execute ttl st query now =
        cachedCall ttl (fun _ => execute query) st (queryHashKey query) now) := by
  refine ⟨?_, ?_, ?_, fun _ _ _ _ _ _ => rfl, fun _ _ _ _ _ => rfl,
    fun _ _ _ _ _ _ _ _ _ _ _ => rfl, fun _ _ _ _ _ _ _ => rfl,
    fun _ _ _ _ _ _ _ _ => rfl, fun _ _ _ _ _ _ => rfl⟩
  · intro K V _ fn key d t1 t2
    constructor
    · simp [cachedCall, lookupFresh]
    · intro ht
      have hfresh : isFresh (some d) t2 t1 = true := by
        simp [isFresh]
        omega
      constructor <;> simp [cachedCall, lookupFresh, hfresh]
  · intro K V _ fn st key now hst
    simp only [cachedCall]
    rw [lookupFresh_ttl_zero key st now hst]
  · intro K V _ fn st key t1 t2
    have hmain : ∃ v, lookupFresh none t2 key ((cachedCall none fn st key t1).2.1) = some v := by
      cases h1 : lookupFresh none t1 key st with
      | some v =>
        refine ⟨v, ?_⟩
        simp only [cachedCall, h1]
        rw [lookupFresh_none_time_irrelevant key st t2 t1]
        exact h1
      | none =>
        refine ⟨fn key, ?_⟩
        simp only [cachedCall, h1]
        simp [lookupFresh, isFresh]
    obtain ⟨v, hv⟩ := hmain
    generalize hst1 : (cachedCall none fn st key t1).2.1 = st1 at hv
    simp [cachedCall, hv]

/-- C2 witness: the cache properties evaluated at a concrete function and
concrete times (hit within the window, `ttl = 0` always recomputes,
`ttl = None` never expires). -/
theorem C2_memoized_ttl_semantics_witness :
    (cachedCall (some 5) (fun n => n + 1) ([] : CacheState Nat Nat) 0 0).2.2 = true ∧
    (cachedCall (some 5) (fun n => n + 1)
      (cachedCall (some 5) (fun n => n + 1) ([] : CacheState Nat Nat) 0 0).2.1 0 3).2.2 = false ∧
    (cachedCall (some 0) (fun n => n + 1) ([] : CacheState Nat Nat) 0 7).2.2 = true ∧
    (cachedCall none (fun n => n + 1)
      (cachedCall none (fun n => n + 1) ([] : CacheState Nat Nat) 0 0).2.1 0 1000).2.2 = false := by
  have h := C2_memoized_ttl_semantics
  exact ⟨(h.1 Nat Nat (fun n => n + 1) 0 5 0 3).1,
    ((h.1 Nat Nat (fun n => n + 1) 0 5 0 3).2 (by decide)).1,
    h.2.1 Nat Nat (fun n => n + 1) [] 0 7 (by simp),
    h.2.2.1 Nat Nat (fun n => n + 1) [] 0 0 1000⟩

/-- Python's `s.split(sep)` for a one-character separator: splitting the
empty string gives `[""]`, and no chunks are collapsed. -/
def pySplit (sep : Char) : List Char → List (List Char)
  | [] => [[]]
  | c :: cs =>
    match pySplit sep cs with
    | [] => [[]]
    | h :: t => if c = sep then [] :: h :: t else (c :: h) :: t

/-- The characters after the last occurrence of `sep` (the whole list when
`sep` does not occur). -/
def afterLast (sep : Char) : List Char → List Char
  | [] => []
  | c :: cs => if c = sep ∨ sep ∈ cs then afterLast sep cs else c :: cs

theorem pySplit_ne_nil (sep : Char) (l : List Char) : pySplit sep l ≠ [] := by
  cases l with
  | nil => simp [pySplit]
  | cons c cs =>
    simp only [pySplit]
    split
    · simp
    · split <;> simp

theorem pySplit_cons (sep c : Char) (cs h : List Char) (t : List (List Char))
    (hps : pySplit sep cs = h :: t) :
    pySplit sep (c :: cs) = if c = sep then [] :: h :: t else (c :: h) :: t := by
  rw [pySplit, hps]

theorem pySplit_no_sep (sep : Char) (l : List Char) (h : sep ∉ l) :
    pySplit sep l = [l] := by
  induction l with
  | nil => rfl
  | cons c cs ih =>
    have hc : ¬ c = sep := fun hcc => h (by simp [hcc])
    have hcs : sep ∉ cs := fun hm => h (by simp [hm])
    rw [pySplit_cons sep c cs cs [] (ih hcs), if_neg hc]

theorem pySplit_len_ge_two (sep : Char) (l : List Char) (h : sep ∈ l) :
    2 ≤ (pySplit sep l).length := by
  induction l with
  | nil => simp at h
  | cons c cs ih =>
    cases hps : pySplit sep cs with
    | nil => exact absurd hps (pySplit_ne_nil sep cs)
    | cons hh tt =>
      rw [pySplit_cons sep c cs hh tt hps]
      by_cases hc : c = sep
      · simp [hc]
      · have hmem : sep ∈ cs := by
          rcases List.mem_cons.mp h with h1 | h2
          · exact absurd h1.symm hc
          · exact h2
        have hlen := ih hmem
        rw [hps] at hlen
        rw [if_neg hc]
        simpa using hlen

theorem getLastD_default_irrel {α : Type} (l : List α) (hl : l ≠ []) (d1 d2 : α) :
    l.getLastD d1 = l.getLastD d2 := by
  cases l with
  | nil => exact absurd rfl hl
  | cons x xs => rw [List.getLastD_cons, List.getLastD_cons]

theorem getLastD_pySplit (sep : Char) (l : List Char) :
    (pySplit sep l).getLastD [] = afterLast sep l := by
  induction l with
  | nil => rfl
  | cons c cs ih =>
    cases hps : pySplit sep cs with
    | nil => exact absurd hps (pySplit_ne_nil sep cs)
    | cons h t =>
      rw [hps] at ih
      rw [pySplit_cons sep c cs h t hps, afterLast]
      by_cases hc : c = sep
      · have hcond : c = sep ∨ sep ∈ cs := Or.inl hc
        rw [if_pos hc, if_pos hcond, List.getLastD_cons]
        exact ih
      · rw [if_neg hc]
        by_cases hmem : sep ∈ cs
        · have hcond : c = sep ∨ sep ∈ cs := Or.inr hmem
          rw [if_pos hcond, List.getLastD_cons]
          have ht : t ≠ [] := by
            have hlen := pySplit_len_ge_two sep cs hmem
            rw [hps] at hlen
            intro hteq
            rw [hteq] at hlen
            simp at hlen
          rw [getLastD_default_irrel t ht (c :: h) h]
          rw [List.getLastD_cons] at ih
          exact ih
        · have hcond : ¬ (c = sep ∨ sep ∈ cs) := by
            rintro (h1 | h2)
            · exact hc h1
            · exact hmem h2
          rw [if_neg hcond]
          have hsingle := pySplit_no_sep sep cs hmem
          rw [hps] at hsingle
          injection hsingle with h1 h2
          subst h1
          subst h2
          rfl

theorem afterLast_no_sep (sep : Char) (l : List Char) (h : sep ∉ l) :
    afterLast sep l = l := by
  cases l with
  | nil => rfl
  | cons c cs =>
    have hcond : ¬ (c = sep ∨ sep ∈ cs) := by
      rintro (h1 | h2)
      · exact h (by simp [h1])
      · exact h (by simp [h2])
    rw [afterLast, if_neg hcond]

theorem afterLast_decomp (sep : Char) (l : List Char) :
    ∃ pre, l = pre ++ afterLast sep l ∧ sep ∉ afterLast sep l ∧
      (pre = [] ∨ ∃ p2, pre = p2 ++ [sep]) := by
  induction l with
  | nil => exact ⟨[], rfl, by simp [afterLast], Or.inl rfl⟩
  | cons c cs ih =>
    by_cases hcond : (c = sep ∨ sep ∈ cs)
    · obtain ⟨pre, hpre, hnot, hend⟩ := ih
      have heq : afterLast sep (c :: cs) = afterLast sep cs := by
        rw [afterLast, if_pos hcond]
      refine ⟨c :: pre, ?_, heq ▸ hnot, ?_⟩
      · rw [heq]
        rw [List.cons_append]
        exact congrArg (c :: ·) hpre
      · rcases hend with h1 | ⟨p2, h2⟩
        · subst h1
          have hcsep : c = sep := by
            rcases hcond with hcc | hmm
            · exact hcc
            · exfalso
              apply hnot
              rw [List.nil_append] at hpre
              rw [← hpre]
              exact hmm
          exact Or.inr ⟨[], by simp [hcsep]⟩
        · exact Or.inr ⟨c :: p2, by simp [h2]⟩
    · have heq : afterLast sep (c :: cs) = c :: cs := by
        rw [afterLast, if_neg hcond]
      rw [heq]
      push_neg at hcond
      refine ⟨[], by simp, ?_, Or.inl rfl⟩
      simp only [List.mem_cons, not_or]
      exact ⟨fun h => hcond.1 h.symm, hcond.2⟩

/-- The body of `SupabaseConnection.download` (the inner `_download`):
`file_name = source_path.split("/")[-1]`, `data` from the SDK download, and
`mime = guess_type(file_name) or "application/octet-stream"`. -/
def download_body (sdk_download : String → String → Bytes)
    (bucket_id source_path : String) : String × String × Bytes :=
  let file_name : String := ⟨(pySplit '/' source_path.toList).getLastD []⟩
  let data := sdk_download bucket_id source_path
  let mime := pyOrStr (guess_type file_name) "application/octet-stream"
  (file_name, mime, data)

/-- `SupabaseConnection.download`: `cache_resource(ttl)` around
`download_body`, keyed by `(bucket_id, source_path)`. -/
def download (sdk_download : String → String → Bytes) (ttl : Option Nat)
    (st : CacheState (String × String) (String × String × Bytes))
    (bucket_id source_path : String) (now : Nat) :
    (String × String × Bytes) × CacheState (String × String) (String × String × Bytes) × Bool :=
  cachedCall ttl (fun a => download_body sdk_download a.1 a.2) st
    (bucket_id, source_path) now

/-- C8: `download` returns `(file_name, mime, data)` with `file_name` the
part of `source_path` after its last `/` (the whole path when it has no
slash), `mime` the type guessed from that name or the generic binary MIME
type, and `data` the SDK's download response; the memoized `download` wrapper
returns exactly this triple on a fresh cache. -/
theorem C8_download_triple (sdk_download : String → String → Bytes)
    (bucket_id source_path : String) :
    (download_body sdk_download bucket_id source_path).2.2 =
      sdk_download bucket_id source_path ∧
    (download_body sdk_download bucket_id source_path).2.1 =
      (match guess_type (download_body sdk_download bucket_id source_path).1 with
       | some m => m
       | none => "application/octet-stream") ∧
    ('/' ∉ source_path.toList →
      (download_body sdk_download bucket_id source_path).1 = source_path) ∧
    (∃ pre, source_path.toList =
        pre ++ (download_body sdk_download bucket_id source_path).1.toList ∧
      '/' ∉ (download_body sdk_download bucket_id source_path).1.toList ∧
      (pre = [] ∨ ∃ p2, pre = p2 ++ ['/'])) ∧
    (∀ (ttl : Option Nat) (now : Nat),
      (download sdk_download ttl [] bucket_id source_path now).1 =
        download_body sdk_download bucket_id source_path) := by
  have hfn : (download_body sdk_download bucket_id source_path).1.toList =
      afterLast '/' source_path.toList := by
    simp only [download_body]
    exact getLastD_pySplit '/' source_path.toList
  refine ⟨rfl, ?_, ?_, ?_, ?_⟩
  · have hmatch := pyOrStr_guess_eq_match
      (download_body sdk_download bucket_id source_path).1
    simp only [download_body] at hmatch ⊢
    exact hmatch
  · intro hnoslash
    have h1 := afterLast_no_sep '/' source_path.toList hnoslash
    rw [← hfn] at h1
    cases hsp : source_path with
    | mk data =>
      rw [hsp] at h1
      simp only [String.toList] at h1
      exact congrArg String.mk h1
  · rw [hfn]
    exact afterLast_decomp '/' source_path.toList
  · intro ttl now
    simp [download, cachedCall, lookupFresh]

/-- C8 witness: the no-slash and after-last-slash statements evaluated on a
constant SDK at `"dir/sub/f.png"` (and the implication at a slash-free
path). -/
theorem C8_download_triple_witness :
    (download_body (fun _ _ => [1, 2]) "bkt" "dir/sub/f.png").2.2 = [1, 2] ∧
    (download_body (fun _ _ => [1, 2]) "bkt" "f.png").1 = "f.png" := by
  have h1 := (C8_download_triple (fun _ _ => [1, 2]) "bkt" "dir/sub/f.png").1
  have h2 := (C8_download_triple (fun _ _ => [1, 2]) "bkt" "f.png").2.2.1 (by decide)
  exact ⟨h1, h2⟩

/-- `path.rsplit("/", maxsplit=1)[-1]`: the part after the last slash. -/
def rsplitLast (s : String) : String := ⟨afterLast '/' s.toList⟩

/-- Observable side effects of the storage upload methods, in order of
occurrence: the SDK calls and runs of the cleanup callback. -/
inductive SdkEvent
  | uploadToSignedUrl (bucket path : String)
  | storageUpload (bucket path : String)
  | cleanupRun (c : CleanupAction)
deriving DecidableEq

/-- The response object of the SDK's `upload_to_signed_url`, with the three
attributes the method reads. -/
structure SignedUploadResponse where
  path : String
  full_path : String
  fullPath : String

/-- `SupabaseConnection.upload_to_signed_url`: normalize the path, derive the
filename, prepare the payload, call the SDK inside `try`, and in the
`finally` block run the cleanup action when there is one — on the success
path and on the exception path alike.  The SDK call is a parameter returning
`Except` so that both outcomes are covered. -/
def upload_to_signed_url
    (sdk_upload : String → String → String → Payload → String →
      Except String SignedUploadResponse)
    (bucket_id path token : String) (file : UploadFile) :
    Except String (String × String × String) × List SdkEvent :=
  match _normalize_storage_path path with
  | Except.error e => (Except.error e, [])
  | Except.ok sanitized_path =>
    let filename := rsplitLast sanitized_path
    let prepared := _prepare_upload_payload file filename
    let result := sdk_upload bucket_id sanitized_path token prepared.1 prepared.2.1
    let events := SdkEvent.uploadToSignedUrl bucket_id sanitized_path ::
      (match prepared.2.2 with
       | some c => [SdkEvent.cleanupRun c]
       | none => [])
    match result with
    | Except.ok r => (Except.ok (r.path, r.full_path, r.fullPath), events)
    | Except.error e => (Except.error e, events)

/-- The number of cleanup runs in an event trace. -/
def countCleanup (events : List SdkEvent) : Nat :=
  (events.filter (fun e =>
    match e with
    | SdkEvent.cleanupRun _ => true
    | _ => false)).length

/-- C5: whenever `_prepare_upload_payload` yields a cleanup action, the event
trace of `upload_to_signed_url` is exactly the SDK upload followed by one run
of that cleanup action — for every SDK outcome, success or raised error. -/
theorem C5_cleanup_exactly_once
    (sdk_upload : String → String → String → Payload → String →
      Except String SignedUploadResponse)
    (bucket_id path token : String) (file : UploadFile) (sp : String)
    (c : CleanupAction)
    (hnorm : _normalize_storage_path path = Except.ok sp)
    (hcleanup : (_prepare_upload_payload file (rsplitLast sp)).2.2 = some c) :
    (upload_to_signed_url sdk_upload bucket_id path token file).2 =
      [SdkEvent.uploadToSignedUrl bucket_id sp, SdkEvent.cleanupRun c] ∧
    countCleanup (upload_to_signed_url sdk_upload bucket_id path token file).2 = 1 := by
  have hmain : (upload_to_signed_url sdk_upload bucket_id path token file).2 =
      [SdkEvent.uploadToSignedUrl bucket_id sp, SdkEvent.cleanupRun c] := by
    simp only [upload_to_signed_url, hnorm, hcleanup]
    cases sdk_upload bucket_id sp token
      (_prepare_upload_payload file (rsplitLast sp)).1
      (_prepare_upload_payload file (rsplitLast sp)).2.1 <;> rfl
  exact ⟨hmain, by rw [hmain]; rfl⟩

/-- C5 witness: a filesystem-path upload runs its handle-closing cleanup
exactly once, both for a succeeding SDK call and for a raising one. -/
theorem C5_cleanup_exactly_once_witness :
    countCleanup (upload_to_signed_url (fun _ _ _ _ _ => Except.ok ⟨"p", "fp", "fP"⟩)
      "bkt" "docs/a.txt" "tok" (UploadFile.pathLike "local.bin")).2 = 1 ∧
    countCleanup (upload_to_signed_url (fun _ _ _ _ _ => Except.error "upload failed")
      "bkt" "docs/a.txt" "tok" (UploadFile.pathLike "local.bin")).2 = 1 := by
  refine ⟨(C5_cleanup_exactly_once _ "bkt" "docs/a.txt" "tok"
      (UploadFile.pathLike "local.bin") "docs/a.txt"
      (CleanupAction.closeHandle "local.bin") rfl rfl).2,
    (C5_cleanup_exactly_once _ "bkt" "docs/a.txt" "tok"
      (UploadFile.pathLike "local.bin") "docs/a.txt"
      (CleanupAction.closeHandle "local.bin") rfl rfl).2⟩

/-- Python exceptions that `upload` can end with. -/
inductive UploadMethodError
  | unboundLocalError (var : String)
  | valueError (msg : String)
deriving DecidableEq

/-- `SupabaseConnection.upload`: the local variable `response` is assigned
only inside the `source == "local"` and `source == "hosted"` branches,
modelled as an `Option` together with the branch's event list; the final
`return response` raises `UnboundLocalError` when the variable was never
assigned (Python's semantics for reading an unassigned local). -/
def upload_method {G : Type} (sdk_upload : String → String → G)
    (bucket_id source file_name destination_path : String) :
    Except UploadMethodError G × List SdkEvent :=
  let branch : Option (G × List SdkEvent) :=
    if source = "local" then
      let p := pyOrStr (some destination_path) ("/" ++ file_name)
      some (sdk_upload bucket_id p, [SdkEvent.storageUpload bucket_id p])
    else if source = "hosted" then
      let p := pyOrStr (some destination_path) ("/" ++ rsplitLast file_name)
      some (sdk_upload bucket_id p, [SdkEvent.storageUpload bucket_id p])
    else none
  match branch with
  | some (r, events) => (Except.ok r, events)
  | none => (Except.error (UploadMethodError.unboundLocalError "response"), [])

/-- C9: for any `source` other than `"local"` and `"hosted"`, `upload`
performs no SDK call and fails with an unbound-local error on `response`; it
neither returns a value nor raises a validation error. -/
theorem C9_upload_invalid_source (G : Type) (sdk_upload : String → String → G)
    (bucket_id source file_name destination_path : String)
    (h1 : source ≠ "local") (h2 : source ≠ "hosted") :
    upload_method sdk_upload bucket_id source file_name destination_path =
      (Except.error (UploadMethodError.unboundLocalError "response"), []) ∧
    (∀ g, (upload_method sdk_upload bucket_id source file_name destination_path).1 ≠
      Except.ok g) ∧
    (∀ msg, (upload_method sdk_upload bucket_id source file_name destination_path).1 ≠
      Except.error (UploadMethodError.valueError msg)) := by
  have hmain : upload_method sdk_upload bucket_id source file_name destination_path =
      (Except.error (UploadMethodError.unboundLocalError "response"), []) := by
    simp [upload_method, h1, h2]
  refine ⟨hmain, ?_, ?_⟩
  · intro g
    rw [hmain]
    simp
  · intro msg
    rw [hmain]
    simp

/-- C9 witness: the theorem applied at `source = "remote"`. -/
theorem C9_upload_invalid_source_witness :
    upload_method (fun _ _ => (0 : Nat)) "bkt" "remote" "f.txt" "" =
      (Except.error (UploadMethodError.unboundLocalError "response"), []) :=
  (C9_upload_invalid_source Nat (fun _ _ => 0) "bkt" "remote" "f.txt" ""
    (by decide) (by decide)).1

/-- The attribute surface of `SupabaseConnection`: the methods defined in the
class body plus the attributes assigned in `_connect` (`execute_query` is a
module-level function, not a method of the class). -/
def supabaseConnectionMembers : List String :=
  ["_connect", "client", "table", "auth", "delete_bucket", "empty_bucket",
   "cached_sign_in_with_password", "get_bucket", "list_buckets", "create_bucket",
   "upload", "download", "update_bucket", "move", "remove", "list_objects",
   "create_signed_urls", "get_public_url", "create_signed_upload_url",
   "upload_to_signed_url"]

/-- C7 counterexample: the facade has no `select` method (nor `insert`,
`upsert`, `update`, `delete`): table operations are reached through the
`table` passthrough attribute, not through one method per operation. -/
theorem C7_facade_per_operation_methods_cex :
    ¬ ("select" ∈ supabaseConnectionMembers ∧
       "insert" ∈ supabaseConnectionMembers ∧
       "upsert" ∈ supabaseConnectionMembers ∧
       "update" ∈ supabaseConnectionMembers ∧
       "delete" ∈ supabaseConnectionMembers) := by decide

/-- C7 (amended): the facade exposes one method per storage, signed-URL and
cached-auth operation and passthrough attributes `table` and `auth` (plus
`delete_bucket` / `empty_bucket`) for the remaining SDK operations, but no
per-operation table methods `select` / `insert` / `upsert` / `update` /
`delete`. -/
theorem C7_facade_method_surface :
    ("create_bucket" ∈ supabaseConnectionMembers ∧
     "get_bucket" ∈ supabaseConnectionMembers ∧
     "list_buckets" ∈ supabaseConnectionMembers ∧
     "delete_bucket" ∈ supabaseConnectionMembers ∧
     "empty_bucket" ∈ supabaseConnectionMembers ∧
     "update_bucket" ∈ supabaseConnectionMembers ∧
     "upload" ∈ supabaseConnectionMembers ∧
     "download" ∈ supabaseConnectionMembers ∧
     "move" ∈ supabaseConnectionMembers ∧
     "remove" ∈ supabaseConnectionMembers ∧
     "list_objects" ∈ supabaseConnectionMembers ∧
     "create_signed_urls" ∈ supabaseConnectionMembers ∧
     "create_signed_upload_url" ∈ supabaseConnectionMembers ∧
     "upload_to_signed_url" ∈ supabaseConnectionMembers ∧
     "get_public_url" ∈ supabaseConnectionMembers ∧
     "cached_sign_in_with_password" ∈ supabaseConnectionMembers) ∧
    ("table" ∈ supabaseConnectionMembers ∧
     "auth" ∈ supabaseConnectionMembers) ∧
    ("select" ∉ supabaseConnectionMembers ∧
     "insert" ∉ supabaseConnectionMembers ∧
     "upsert" ∉ supabaseConnectionMembers ∧
     "update" ∉ supabaseConnectionMembers ∧
     "delete" ∉ supabaseConnectionMembers) := by decide
